import Mathlib

/-!
# Logread: sessions over an ACL skipchain and a write/read-log skipchain

A shallow embedding of `logread.go` (package `logread`).

Conventions of the embedding.

* A Go byte slice is a `List Nat`; the nil slice and the empty slice are both `[]`.
* A Go result pair `(value, error)` is a Lean pair whose second component is
  `Option GoError`, `none` standing for the nil error.  A nil pointer result is `none`.
* The four exported pointers of a `Logread` are always allocated in a session, so
  they are values here.  The unexported `cl` may be nil (it is not part of the wire
  format), so it is an `Option`.
* The skipchain client, the key generator, the network codec and the Schnorr
  verifier are collaborators whose code is not part of `logread.go`.  They are
  gathered in `Env`.  The conodes are stateful, so every client call reads and
  updates a world of type `σ`; the calls a session makes are also appended to a
  log, `State.calls`.
* Mutation through the receiver `lr` is explicit state passing on `State`.
* A Go map is a reference: a map field is nil or the address of an allocated map in
  a `Heap`, a write through a nil map panics, and two fields with one address share
  one map.
-/

namespace Cothority

abbrev Bytes := List Nat

/-- The Go type `skipchain.SkipBlockID`, a byte slice. -/
abbrev SkipBlockID := Bytes

/-- The Go type `abstract.Point`, kept abstract as a number. -/
abbrev Point := Nat

/-- The Go type `crypto.SchnorrSig`, kept abstract as a byte string. -/
abbrev SchnorrSig := Bytes

/-- The Go type `onet.Roster`, kept abstract as the list of its conode identifiers. -/
abbrev Roster := List Nat

/-- Modelled from the spec: the interface `onet.ClientError` is declared outside the
source files; a failure of a collaborator, kept as an error code and a message. -/
structure ClientError where
  ErrorCode : Nat
  ErrorMsg : String
  deriving DecidableEq, Repr

/-- The Go interface `error`, by origin: `errors.New`, a client error assigned to an
`error`, or an error of the network codec. -/
inductive GoError where
  | errorsNew (msg : String)
  | ofClient (cerr : ClientError)
  | ofCodec (msg : String)
  deriving DecidableEq, Repr

/-- Modelled from the spec: the struct `Credential` is declared outside `logread.go`;
the spec gives it a pseudonym and a public key, and `RequestFile` reads `Public`. -/
structure Credential where
  Pseudonym : String
  Public : Point
  deriving DecidableEq, Repr

/-- Modelled from the spec: the struct behind `lr.ACL.Admins`, `lr.ACL.Writers` and
`lr.ACL.Readers` is declared outside `logread.go`; the credentials of one role.
`DelUser` reads its field `List`. -/
structure SlicePseudo where
  List : List Credential
  deriving DecidableEq, Repr

/-- Modelled from the spec: the struct `DataACL` is declared outside `logread.go`; the
credential registry with the lists of the roles admin, writer and reader, the three
fields `AddUser` and `DelUser` use. -/
structure DataACL where
  Admins : SlicePseudo
  Writers : SlicePseudo
  Readers : SlicePseudo
  deriving DecidableEq, Repr

/-- Modelled from the spec: the struct `skipchain.SkipBlock` is declared outside the
source files; a block of a ledger, with the three fields `logread.go` touches and the
remaining fields gathered in `Rest`. -/
structure SkipBlock where
  Hash : SkipBlockID
  Data : Bytes
  Roster : Roster
  Rest : Bytes
  deriving DecidableEq, Repr

/-- Modelled from the spec: the struct behind `dw.Read` is declared outside
`logread.go`; the read request with its file reference, the pseudonym of the reader
and the signature over the file reference, and the `EncKey` that `RequestFile` copies.
`Signature` is a pointer in the source (`*read.Signature`), hence an `Option`. -/
structure DataWlrRead where
  Pseudonym : String
  File : SkipBlockID
  EncKey : Bytes
  Signature : Option SchnorrSig
  deriving DecidableEq, Repr

/-- Modelled from the spec: the struct `DataWlr` is declared outside `logread.go`; the
payload of a block of the data ledger, which holds write records as well as read
requests.  A block that carries no read request has `Read = none`. -/
structure DataWlr where
  Read : Option DataWlrRead
  deriving DecidableEq, Repr

/-- Modelled from the spec: the struct `Client` is declared outside `logread.go`; the
client of the ledger and of the threshold-crypto service, kept abstract as a handle. -/
structure Client where
  handle : Nat
  deriving DecidableEq, Repr

/-- The struct `Logread` of `logread.go`. -/
structure Logread where
  LatestACL : SkipBlock
  LatestWlr : SkipBlock
  ACL : DataACL
  Admin : Credential
  cl : Option Client
  deriving DecidableEq, Repr

/-- The struct `FileRequest` of `logread.go`. -/
structure FileRequest where
  File : SkipBlockID
  Read : SkipBlockID
  Cred : Credential
  EncKey : Bytes
  deriving DecidableEq, Repr

/-- What `network.Unmarshal` can hand back as its message: a `*Logread`, a `*DataWlr`,
or a message of another registered type. -/
inductive Message where
  | logread (lr : Logread)
  | dataWlr (dw : DataWlr)
  | other (typeID : Nat)
  deriving DecidableEq, Repr

/-- Modelled from the spec: the reply of `Client.EvolveACL` is declared outside
`logread.go`; the reference of the committed block, read as `reply.SB`. -/
structure EvolveACLReply where
  SB : SkipBlock
  deriving DecidableEq, Repr

/-- One call made to a collaborator through `lr.cl`. -/
inductive Call where
  | EvolveACL (latest : SkipBlock) (acl : DataACL) (admin : Credential)
  | WriteRequest (latest : SkipBlock) (encData encKey : Bytes) (writer : Credential)
  | ReadRequest (latest : SkipBlock) (reader : Credential) (file : SkipBlockID)
  | GetFile (roster : Roster) (file : SkipBlockID)
  | DecryptKeyRequest (roster : Roster) (read : SkipBlockID) (reader : Credential)
  deriving DecidableEq, Repr

/-- Modelled from the spec: the collaborators of `logread.go`, whose code is outside
the source files, taken as parameters.  The methods of `Client` take the world of the
conodes and the receiver `lr.cl`; they do not write through the pointers they are
passed, and a method that returns a pointer and a `ClientError` returns the pointer
exactly when the error is nil.  `GetFile` and `DecryptKeyRequest` return a byte slice
next to their `ClientError`.  `VerifySchnorr` returns nil for a valid signature. -/
structure Env (σ : Type) where
  NewClient : Client
  NewCredential : σ → String → Credential × σ
  EvolveACL : σ → Option Client → SkipBlock → DataACL → Credential →
    Except ClientError EvolveACLReply × σ
  WriteRequest : σ → Option Client → SkipBlock → Bytes → Bytes → Credential →
    Except ClientError SkipBlock × σ
  ReadRequest : σ → Option Client → SkipBlock → Credential → SkipBlockID →
    Except ClientError SkipBlock × σ
  GetFile : σ → Option Client → Roster → SkipBlockID → (Bytes × Option ClientError) × σ
  DecryptKeyRequest : σ → Option Client → Roster → SkipBlockID → Credential →
    (Bytes × Option ClientError) × σ
  Marshal : Logread → Bytes × Option GoError
  Unmarshal : Bytes → Except GoError Message
  VerifySchnorr : Point → Bytes → SchnorrSig → Option GoError

/-- A session together with the world it talks to and the log of its calls. -/
structure State (σ : Type) where
  lr : Logread
  world : σ
  calls : List Call

/-- How a Go call ends: it returns, or it panics on a nil dereference. -/
inductive Outcome (α : Type) where
  | returned (a : α)
  | panicked
  deriving DecidableEq, Repr

/-- Modelled from the spec: `SlicePseudo.FindPseudo` is declared outside `logread.go`.
`FindPseudonym(role, name) -> Credential | NotFound`: the first credential of the list
with that pseudonym and its index, or nil and -1. -/
def SlicePseudo.FindPseudo (sp : SlicePseudo) (n : String) : Option Credential × Int :=
  match sp.List.find? (fun c => c.Pseudonym == n) with
  | some c => (some c, (sp.List.indexOf c : Int))
  | none => (none, -1)

/-- Modelled from the spec: `SlicePseudo.AddPseudo` is declared outside `logread.go`.
`AddPseudonym` inserts a credential and is idempotent if the name is already present;
the key of the new credential comes from the key generator. -/
def SlicePseudo.AddPseudo {σ : Type} (env : Env σ) (w : σ) (sp : SlicePseudo)
    (n : String) : SlicePseudo × σ :=
  match (sp.FindPseudo n).1 with
  | some _ => (sp, w)
  | none => ({ List := sp.List ++ [(env.NewCredential w n).1] }, (env.NewCredential w n).2)

/-- Modelled from the spec: `SlicePseudo.DelPseudo` is declared outside `logread.go`.
`RemovePseudonym` removes the entry; following the comment of `DelUser`, all users
with that name are removed. -/
def SlicePseudo.DelPseudo (sp : SlicePseudo) (n : String) : SlicePseudo :=
  { List := sp.List.filter (fun c => c.Pseudonym != n) }

def UserAdmin : Int := 0

def UserWriter : Int := 1

def UserReader : Int := 2

/-- The method `Logread.Marshal`: empties the data of both latest blocks of the live
session, then encodes the session. -/
def Marshal {σ : Type} (env : Env σ) (lr : Logread) : (Bytes × Option GoError) × Logread :=
  let lr1 : Logread := { lr with LatestACL := { lr.LatestACL with Data := [] } }
  let lr2 : Logread := { lr1 with LatestWlr := { lr1.LatestWlr with Data := [] } }
  (env.Marshal lr2, lr2)

/-- The function `NewLogreadUnmarshal`. -/
def NewLogreadUnmarshal {σ : Type} (env : Env σ) (data : Bytes) :
    Option Logread × Option GoError :=
  match env.Unmarshal data with
  | .error err => (none, some err)
  | .ok (.logread lr) => (some { lr with cl := some env.NewClient }, none)
  | .ok _ => (none, some (.errorsNew "this is not a Logread-slice"))

/-- The tail shared by `AddUser` and `DelUser`: commit `lr.ACL` on top of
`lr.LatestACL` and move `lr.LatestACL` to the returned block on success. -/
def commitACL {σ : Type} (env : Env σ) (s : State σ) : Option GoError × State σ :=
  let r := env.EvolveACL s.world s.lr.cl s.lr.LatestACL s.lr.ACL s.lr.Admin
  let log := s.calls ++ [Call.EvolveACL s.lr.LatestACL s.lr.ACL s.lr.Admin]
  match r.1 with
  | .error err => (some (.ofClient err), { lr := s.lr, world := r.2, calls := log })
  | .ok reply =>
    (none, { lr := { s.lr with LatestACL := reply.SB }, world := r.2, calls := log })

/-- The `switch` of `AddUser`: the registry and the world after the `AddPseudo` of the
matching case, or `none` in the `default` case. -/
def addToACL {σ : Type} (env : Env σ) (w : σ) (acl : DataACL) (name : String)
    (userType : Int) : Option (DataACL × σ) :=
  if userType = UserAdmin then
    some ({ acl with Admins := (acl.Admins.AddPseudo env w name).1 },
      (acl.Admins.AddPseudo env w name).2)
  else if userType = UserWriter then
    some ({ acl with Writers := (acl.Writers.AddPseudo env w name).1 },
      (acl.Writers.AddPseudo env w name).2)
  else if userType = UserReader then
    some ({ acl with Readers := (acl.Readers.AddPseudo env w name).1 },
      (acl.Readers.AddPseudo env w name).2)
  else
    none

/-- The method `Logread.AddUser`. -/
def AddUser {σ : Type} (env : Env σ) (s : State σ) (name : String) (userType : Int) :
    Option GoError × State σ :=
  match addToACL env s.world s.lr.ACL name userType with
  | none => (some (.errorsNew "don't know this type of user"), s)
  | some (acl, w) => commitACL env { s with lr := { s.lr with ACL := acl }, world := w }

/-- The registry as `DelUser` leaves it in memory before it commits. -/
def delFromACL (acl : DataACL) (name : String) : DataACL :=
  let admins := if acl.Admins.List.length > 1 then acl.Admins.DelPseudo name else acl.Admins
  { Admins := admins, Writers := acl.Writers.DelPseudo name,
    Readers := acl.Readers.DelPseudo name }

/-- The method `Logread.DelUser`. -/
def DelUser {σ : Type} (env : Env σ) (s : State σ) (name : String) :
    Option GoError × State σ :=
  commitACL env { s with lr := { s.lr with ACL := delFromACL s.lr.ACL name } }

/-- The method `Logread.AddFile`. -/
def AddFile {σ : Type} (env : Env σ) (s : State σ) (encData encKey : Bytes)
    (name : String) : (SkipBlockID × Option GoError) × State σ :=
  match (s.lr.ACL.Writers.FindPseudo name).1 with
  | none => (([], some (.errorsNew "didn't find writer")), s)
  | some writer =>
    let r := env.WriteRequest s.world s.lr.cl s.lr.LatestWlr encData encKey writer
    let log := s.calls ++ [Call.WriteRequest s.lr.LatestWlr encData encKey writer]
    match r.1 with
    | .error cerr => (([], some (.ofClient cerr)), { lr := s.lr, world := r.2, calls := log })
    | .ok sb =>
      ((sb.Hash, none), { lr := { s.lr with LatestWlr := sb }, world := r.2, calls := log })

/-- The checks `RequestFile` runs on the block `sb` the ledger committed for the
reader `reader` named `name`, asking for file `id`. -/
def checkRead {σ : Type} (env : Env σ) (sb : SkipBlock) (reader : Credential)
    (id : SkipBlockID) (name : String) : Outcome (Option FileRequest × Option GoError) :=
  match env.Unmarshal sb.Data with
  | .error err => .returned (none, some err)
  | .ok (.dataWlr dw) =>
    match dw.Read with
    | none => .panicked
    | some read =>
      if read.Pseudonym ≠ name then
        .returned (none, some (.errorsNew "got wrong pseudo"))
      else
        match read.Signature with
        | none => .panicked
        | some sig =>
          if env.VerifySchnorr reader.Public read.File sig ≠ none then
            .returned (none, some (.errorsNew "Wrong signature"))
          else
            .returned (some { File := id, Read := sb.Hash, EncKey := read.EncKey,
                              Cred := reader }, none)
  | .ok _ => .returned (none, some (.errorsNew "didn't get correct skipblock"))

/-- The method `Logread.RequestFile`. -/
def RequestFile {σ : Type} (env : Env σ) (s : State σ) (id : SkipBlockID)
    (name : String) : Outcome (Option FileRequest × Option GoError) × State σ :=
  match (s.lr.ACL.Readers.FindPseudo name).1 with
  | none => (.returned (none, some (.errorsNew "didn't find reader")), s)
  | some reader =>
    let r := env.ReadRequest s.world s.lr.cl s.lr.LatestWlr reader id
    let log := s.calls ++ [Call.ReadRequest s.lr.LatestWlr reader id]
    match r.1 with
    | .error cerr =>
      (.returned (none, some (.ofClient cerr)), { lr := s.lr, world := r.2, calls := log })
    | .ok sb =>
      (checkRead env sb reader id name,
        { lr := { s.lr with LatestWlr := sb }, world := r.2, calls := log })

/-- The three named results of `Logread.ReadFile`. -/
structure ReadFileResult where
  file : Bytes
  key : Bytes
  err : Option GoError
  deriving DecidableEq, Repr

/-- The method `Logread.ReadFile`.  The named result `err` is assigned only after a
failed `GetFile`; after `DecryptKeyRequest` the function returns `err` as it stands. -/
def ReadFile {σ : Type} (env : Env σ) (s : State σ) (read : FileRequest) :
    ReadFileResult × State σ :=
  let g := env.GetFile s.world s.lr.cl s.lr.LatestWlr.Roster read.File
  let log1 := s.calls ++ [Call.GetFile s.lr.LatestWlr.Roster read.File]
  match g.1.2 with
  | some cerr =>
    ({ file := g.1.1, key := [], err := some (.ofClient cerr) },
      { lr := s.lr, world := g.2, calls := log1 })
  | none =>
    let d := env.DecryptKeyRequest g.2 s.lr.cl s.lr.LatestWlr.Roster read.Read read.Cred
    let log2 := log1 ++ [Call.DecryptKeyRequest s.lr.LatestWlr.Roster read.Read read.Cred]
    ({ file := g.1.1, key := d.1.1, err := none },
      { lr := s.lr, world := d.2, calls := log2 })

/-- The codec of `env` inverts itself on sessions: `network.Marshal` encodes every
session without error, and `network.Unmarshal` decodes the bytes to a `*Logread`
with the same exported fields; the unexported `cl` is not transported. -/
def CodecInverts {σ : Type} (env : Env σ) : Prop :=
  ∀ x : Logread, (env.Marshal x).2 = none ∧
    env.Unmarshal (env.Marshal x).1 = .ok (.logread { x with cl := none })

/-! ## Concrete collaborators used to evaluate the code -/

/-- A block numbered `w` on the roster `r` with payload `d`. -/
def blockAt (w : Nat) (r : Roster) (d : Bytes) : SkipBlock :=
  { Hash := [w], Data := d, Roster := r, Rest := [] }

/-- A credential as numbers: the code points of its pseudonym and its key. -/
def credWire (c : Credential) : List Nat × Nat :=
  (c.Pseudonym.toList.map Char.toNat, c.Public)

def credOfWire (p : List Nat × Nat) : Credential :=
  { Pseudonym := String.mk (p.1.map Char.ofNat), Public := p.2 }

/-- A block as numbers. -/
def blockWire (b : SkipBlock) : (List Nat × List Nat) × (List Nat × List Nat) :=
  ((b.Hash, b.Data), (b.Roster, b.Rest))

def blockOfWire (p : (List Nat × List Nat) × (List Nat × List Nat)) : SkipBlock :=
  { Hash := p.1.1, Data := p.1.2, Roster := p.2.1, Rest := p.2.2 }

/-- The shape of the exported fields of a session as numbers. -/
abbrev Wire : Type :=
  (((List Nat × List Nat) × (List Nat × List Nat)) ×
    ((List Nat × List Nat) × (List Nat × List Nat))) ×
  ((List (List Nat × Nat) × List (List Nat × Nat) × List (List Nat × Nat)) ×
    (List Nat × Nat))

/-- The exported fields of a session as numbers; the unexported `cl` is left out. -/
def logreadWire (lr : Logread) : Wire :=
  ((blockWire lr.LatestACL, blockWire lr.LatestWlr),
   ((lr.ACL.Admins.List.map credWire, lr.ACL.Writers.List.map credWire,
      lr.ACL.Readers.List.map credWire), credWire lr.Admin))

def logreadOfWire (p : Wire) : Logread :=
  { LatestACL := blockOfWire p.1.1, LatestWlr := blockOfWire p.1.2,
    ACL := { Admins := ⟨p.2.1.1.map credOfWire⟩, Writers := ⟨p.2.1.2.1.map credOfWire⟩,
             Readers := ⟨p.2.1.2.2.map credOfWire⟩ },
    Admin := credOfWire p.2.2, cl := none }

/-- One number for the exported fields of a session. -/
@[irreducible] def wireCode (w : Wire) : Nat := Encodable.encode w

/-- The exported fields with a given code, if any. -/
@[irreducible] def wireDecode (n : Nat) : Option Wire := Encodable.decode n

/-- An encoder for the evaluation: the tag `100` and the code of the exported fields. -/
def demoMarshal (lr : Logread) : Bytes × Option GoError :=
  ([100, wireCode (logreadWire lr)], none)

/-- A codec for the evaluation: the payload `[1]` decodes to a read record of
"carol" for file `[5]` with signature `[9]`, `[2]` to a read record of "mallory",
`[3]` to a record of "carol" with signature `[8]`, `[4]` to a block without a read
record, `[6]` to a message of another type, and a payload `[t, n]` of two numbers to
the session with the code `n`; anything else does not decode. -/
def demoUnmarshal (b : Bytes) : Except GoError Message :=
  match b with
  | [t] =>
    if t = 1 then .ok (.dataWlr ⟨some ⟨"carol", [5], [42], some [9]⟩⟩)
    else if t = 2 then .ok (.dataWlr ⟨some ⟨"mallory", [5], [42], some [9]⟩⟩)
    else if t = 3 then .ok (.dataWlr ⟨some ⟨"carol", [5], [42], some [8]⟩⟩)
    else if t = 4 then .ok (.dataWlr ⟨none⟩)
    else if t = 6 then .ok (.other 0)
    else .error (.ofCodec "cannot decode")
  | [_, n] =>
    match wireDecode n with
    | some w => .ok (.logread (logreadOfWire w))
    | none => .error (.ofCodec "cannot decode")
  | _ => .error (.ofCodec "cannot decode")

/-- Conodes for the evaluation.  The world is the number of blocks committed so far.
Every commit is accepted when `accept` holds and refused otherwise; a read request
is answered with a block of payload `payload`; the file is served, and the
re-encryption is served when `reenc` holds and refused otherwise.  Only the
signature `[9]` verifies. -/
def demoEnv (accept : Bool) (payload : Bytes) (reenc : Bool) : Env Nat where
  NewClient := ⟨1⟩
  NewCredential := fun w n => (⟨n, 100 + w⟩, w + 1)
  EvolveACL := fun w _ latest _ _ =>
    if accept then (.ok ⟨blockAt w latest.Roster [0]⟩, w + 1)
    else (.error ⟨4100, "commit refused"⟩, w)
  WriteRequest := fun w _ latest encData _ _ =>
    if accept then (.ok (blockAt w latest.Roster encData), w + 1)
    else (.error ⟨4100, "commit refused"⟩, w)
  ReadRequest := fun w _ latest _ _ =>
    if accept then (.ok (blockAt w latest.Roster payload), w + 1)
    else (.error ⟨4100, "commit refused"⟩, w)
  GetFile := fun w _ _ _ => (([77], none), w)
  DecryptKeyRequest := fun w _ _ _ _ =>
    if reenc then (([33], none), w) else (([], some ⟨4101, "re-encryption failed"⟩), w)
  Marshal := demoMarshal
  Unmarshal := demoUnmarshal
  VerifySchnorr := fun _ _ sig => if sig = [9] then none else some (.errorsNew "bad signature")

/-- A session with the admin "alice", the writer "bob" and the reader "carol". -/
def demoLogread : Logread where
  LatestACL := blockAt 0 [1, 2, 3] [10]
  LatestWlr := blockAt 1 [1, 2, 3] [11]
  ACL := { Admins := ⟨[⟨"alice", 100⟩]⟩, Writers := ⟨[⟨"bob", 101⟩]⟩,
           Readers := ⟨[⟨"carol", 102⟩]⟩ }
  Admin := ⟨"alice", 100⟩
  cl := some ⟨0⟩

/-- The session `demoLogread` in a world with two blocks and an empty call log. -/
def demoState : State Nat := { lr := demoLogread, world := 2, calls := [] }

/-! ## The survey store of `services/medco/store/survey_store.go` -/

/-- Modelled from the spec: the type `CipherVector` is declared in package `structs`,
outside the source files, and the spec does not describe it; a vector of
ciphertexts, kept abstract as a list of numbers. -/
abbrev CipherVector := List Nat

/-- Modelled from the spec: the type `TempID` is declared in package `structs`,
outside the source files, and the spec does not describe it; taken as the `uint64`
that `nextId` converts, so a number below `2 ^ 64`. -/
abbrev TempID := Nat

/-- Modelled from the spec: the type `GroupingKey` is declared in package `structs`,
outside the source files; the key of a group, kept abstract as a string. -/
abbrev GroupingKey := String

/-- Modelled from the spec: the type `GroupingAttributes` is declared in package
`structs`, outside the source files; kept abstract as a list of numbers. -/
abbrev GroupingAttributes := List Nat

/-- Modelled from the spec: the struct `ClientResponse` is declared in package
`structs`, outside the source files; the two fields the store reads. -/
structure ClientResponse where
  ProbabilisticGroupingAttributes : CipherVector
  AggregatingAttributes : CipherVector
  deriving DecidableEq, Repr

/-- Modelled from the spec: the struct `SurveyResult` is declared in package `structs`,
outside the source files; the two fields the store fills. -/
structure SurveyResult where
  GroupingAttributes : CipherVector
  AggregatingAttributes : CipherVector
  deriving DecidableEq, Repr

/-- The contents of an allocated Go map with keys of type `K`, as its list of
entries; the entry for a key is the first one with that key. -/
abbrev GoMap (K V : Type) := List (K × V)

/-- The read `m[k]` with its presence flag, on the contents of a map. -/
def GoMap.get {K V : Type} [BEq K] (m : GoMap K V) (k : K) : Option V := List.lookup k m

/-- The effect of the write `m[k] = v` on the contents of an allocated map: the entry
for `k` is replaced or added.  The write through a nil map is `mapAssign`. -/
def GoMap.set {K V : Type} [BEq K] (m : GoMap K V) (k : K) (v : V) : GoMap K V :=
  (k, v) :: m.filter (fun p => !(p.1 == k))

/-- The keys of the contents of a map. -/
def GoMap.keys {K V : Type} (m : GoMap K V) : List K := m.map Prod.fst

/-- A Go map value: nil, or the address of an allocated map.  Two fields that hold
the same address share one map. -/
abbrev MapRef := Option Nat

/-- The allocated maps of type `map[TempID]CipherVector`, by address. -/
abbrev Heap := Nat → GoMap TempID CipherVector

/-- The heap with the contents of the map at address `a` replaced. -/
def Heap.write (h : Heap) (a : Nat) (m : GoMap TempID CipherVector) : Heap :=
  fun x => if x = a then m else h x

/-- The contents read through a map value: a nil map reads as a map without entries. -/
def Heap.read (h : Heap) (r : MapRef) : GoMap TempID CipherVector :=
  match r with
  | none => []
  | some a => h a

/-- The Go statement `m[k] = v`: a panic when `m` is nil, else the write into the
map `m` refers to. -/
def mapAssign (h : Heap) (r : MapRef) (k : TempID) (v : CipherVector) : Outcome Heap :=
  match r with
  | none => .panicked
  | some a => .returned (h.write a ((h a).set k v))

/-- The struct `Survey`; `Id` is a UUID, kept as its bytes.  Every map field is a map
value; the maps of the three fields of type `map[TempID]CipherVector` live in the
`Heap`, the maps of the other types in heaps the polling of client responses does not
touch. -/
structure Survey where
  Id : Bytes
  ClientResponses : List ClientResponse
  DeliverableResults : List SurveyResult
  ProbabilisticGroupingAttributes : MapRef
  AggregatingAttributes : MapRef
  LocGroupingAggregating : MapRef
  LocGroupingGroups : MapRef
  GroupedDeterministicGroupingAttributes : MapRef
  GroupedAggregatingAttributes : MapRef
  lastId : Nat
  deriving DecidableEq, Repr

/-- The method `Survey.nextId`: `s.lastId += 1` on a `uint64`, then the new value as a
`TempID`. -/
def Survey.nextId (s : Survey) : TempID × Survey :=
  ((s.lastId + 1) % 2 ^ 64, { s with lastId := (s.lastId + 1) % 2 ^ 64 })

/-- The body of the loop of `PollProbabilisticGroupingAttributes` for one pending
client response `v`: `nextId`, then the write into `s.AggregatingAttributes`, then the
write into `s.ProbabilisticGroupingAttributes`. -/
def pollStep (h : Heap) (s : Survey) (v : ClientResponse) : Outcome (Survey × Heap) :=
  let s1 := (s.nextId).2
  let newId := (s.nextId).1
  match mapAssign h s1.AggregatingAttributes newId v.AggregatingAttributes with
  | .panicked => .panicked
  | .returned h1 =>
    match mapAssign h1 s1.ProbabilisticGroupingAttributes newId
        v.ProbabilisticGroupingAttributes with
    | .panicked => .panicked
    | .returned h2 => .returned (s1, h2)

/-- The loop `for _, v := range s.ClientResponses` of
`PollProbabilisticGroupingAttributes` over the responses `l` still to visit. -/
def pollLoop (h : Heap) (s : Survey) : List ClientResponse → Outcome (Survey × Heap)
  | [] => .returned (s, h)
  | v :: t =>
    match pollStep h s v with
    | .panicked => .panicked
    | .returned (s1, h1) => pollLoop h1 s1 t

/-- The method `Survey.PollProbabilisticGroupingAttributes`: the loop over the pending
client responses, the truncation `s.ClientResponses[:0]`, and the returned map
`s.ProbabilisticGroupingAttributes`. -/
def Survey.PollProbabilisticGroupingAttributes (h : Heap) (s : Survey) :
    Outcome (MapRef × Survey × Heap) :=
  match pollLoop h s s.ClientResponses with
  | .panicked => .panicked
  | .returned (s1, h1) =>
    .returned (s1.ProbabilisticGroupingAttributes, { s1 with ClientResponses := [] }, h1)

/-- The map after the loop has stored `f v` for each `v` of `l` under the keys
`L + 1`, `L + 2`, ... in turn. -/
def pollMap (f : ClientResponse → CipherVector) (L : Nat) (m : GoMap TempID CipherVector) :
    List ClientResponse → GoMap TempID CipherVector
  | [] => m
  | v :: t => pollMap f (L + 1) (m.set (L + 1) (f v)) t

/-- A heap for the evaluation: the map at address 0 has the keys 3 and 2, the map at
address 1 the keys 3 and 1, every other map is empty. -/
def demoHeap : Heap :=
  fun x => if x = 0 then [(3, [3]), (2, [4])] else if x = 1 then [(3, [1]), (1, [2])] else []

/-- The heap in which every allocated map is empty. -/
def emptyHeap : Heap := fun _ => []

/-- A survey with `AggregatingAttributes` at address 0 and
`ProbabilisticGroupingAttributes` at address 1, last key 3 and two pending client
responses. -/
def demoSurvey : Survey where
  Id := [1]
  ClientResponses := [⟨[10], [11]⟩, ⟨[20], [21]⟩]
  DeliverableResults := []
  ProbabilisticGroupingAttributes := some 1
  AggregatingAttributes := some 0
  LocGroupingAggregating := some 2
  LocGroupingGroups := some 3
  GroupedDeterministicGroupingAttributes := some 4
  GroupedAggregatingAttributes := some 5
  lastId := 3

/-- The zero value `Survey{ClientResponses: [r]}`: every map is nil, one client
response is pending. -/
def zeroSurvey : Survey where
  Id := []
  ClientResponses := [⟨[10], [11]⟩]
  DeliverableResults := []
  ProbabilisticGroupingAttributes := none
  AggregatingAttributes := none
  LocGroupingAggregating := none
  LocGroupingGroups := none
  GroupedDeterministicGroupingAttributes := none
  GroupedAggregatingAttributes := none
  lastId := 0

/-- A survey whose fields `AggregatingAttributes` and
`ProbabilisticGroupingAttributes` hold one shared, empty map at address 7; one client
response is pending. -/
def sharedSurvey : Survey where
  Id := []
  ClientResponses := [⟨[10], [11]⟩]
  DeliverableResults := []
  ProbabilisticGroupingAttributes := some 7
  AggregatingAttributes := some 7
  LocGroupingAggregating := none
  LocGroupingGroups := none
  GroupedDeterministicGroupingAttributes := none
  GroupedAggregatingAttributes := none
  lastId := 0

/-! ## Lookup in a credential list -/

theorem FindPseudo_eq_none_iff (sp : SlicePseudo) (n : String) :
    (sp.FindPseudo n).1 = none ↔ ∀ c ∈ sp.List, c.Pseudonym ≠ n := by
  unfold SlicePseudo.FindPseudo
  cases h : sp.List.find? (fun c => c.Pseudonym == n) with
  | none =>
    simp only [true_iff]
    intro c hc
    have := List.find?_eq_none.mp h c hc
    simpa using this
  | some c =>
    constructor
    · intro hc
      cases hc
    · intro hall
      have hmem := List.mem_of_find?_eq_some h
      have hp := List.find?_some h
      exact absurd (by simpa using hp) (hall c hmem)

theorem FindPseudo_some_pseudonym (sp : SlicePseudo) (n : String) (c : Credential)
    (h : (sp.FindPseudo n).1 = some c) : c ∈ sp.List ∧ c.Pseudonym = n := by
  unfold SlicePseudo.FindPseudo at h
  cases hf : sp.List.find? (fun c => c.Pseudonym == n) with
  | none => simp [hf] at h
  | some d =>
    simp [hf] at h
    subst h
    exact ⟨List.mem_of_find?_eq_some hf, by simpa using List.find?_some hf⟩

/-! ## Unauthorized callers -/

/-- C1: when `FindPseudo` finds no credential for `name` in `Writers`, `AddFile`
returns an error and the nil file ID, makes no call to the ledger (the call log and
the world are as before), and leaves the session, `LatestWlr` included, as it was. -/
theorem AddFile_unknown_writer {σ : Type} (env : Env σ) (s : State σ)
    (encData encKey : Bytes) (name : String)
    (h : (s.lr.ACL.Writers.FindPseudo name).1 = none) :
    (AddFile env s encData encKey name).1 = ([], some (.errorsNew "didn't find writer")) ∧
    (AddFile env s encData encKey name).2.calls = s.calls ∧
    (AddFile env s encData encKey name).2.world = s.world ∧
    (AddFile env s encData encKey name).2.lr.LatestWlr = s.lr.LatestWlr ∧
    (AddFile env s encData encKey name).2.lr = s.lr := by
  simp [AddFile, h]

theorem AddFile_unknown_writer_witness :
    (demoState.lr.ACL.Writers.FindPseudo "dave").1 = none ∧
    (AddFile (demoEnv true [1] true) demoState [7] [8] "dave").1
      = ([], some (.errorsNew "didn't find writer")) ∧
    (AddFile (demoEnv true [1] true) demoState [7] [8] "dave").2.calls = [] :=
  ⟨by decide,
   (AddFile_unknown_writer (demoEnv true [1] true) demoState [7] [8] "dave" (by decide)).1,
   (AddFile_unknown_writer (demoEnv true [1] true) demoState [7] [8] "dave" (by decide)).2.1⟩

/-- C2: when `FindPseudo` finds no credential for `name` in `Readers`, `RequestFile`
returns an error and a nil `FileRequest`, whatever the collaborators would answer;
no read request is sent and the session is as before. -/
theorem RequestFile_unknown_reader {σ : Type} (env : Env σ) (s : State σ)
    (id : SkipBlockID) (name : String)
    (h : (s.lr.ACL.Readers.FindPseudo name).1 = none) :
    (RequestFile env s id name).1
      = .returned (none, some (.errorsNew "didn't find reader")) ∧
    (RequestFile env s id name).2.calls = s.calls ∧
    (RequestFile env s id name).2.world = s.world ∧
    (RequestFile env s id name).2.lr = s.lr := by
  simp [RequestFile, h]

theorem RequestFile_unknown_reader_witness :
    (demoState.lr.ACL.Readers.FindPseudo "dave").1 = none ∧
    (RequestFile (demoEnv true [1] true) demoState [5] "dave").1
      = .returned (none, some (.errorsNew "didn't find reader")) :=
  ⟨by decide,
   (RequestFile_unknown_reader (demoEnv true [1] true) demoState [5] "dave" (by decide)).1⟩

/-! ## The check after a committed read request -/

theorem checkRead_accepts {σ : Type} (env : Env σ) (sb : SkipBlock) (reader : Credential)
    (id : SkipBlockID) (name : String) (read : DataWlrRead) (sig : SchnorrSig)
    (hd : env.Unmarshal sb.Data = .ok (.dataWlr ⟨some read⟩))
    (hp : read.Pseudonym = name) (hs : read.Signature = some sig)
    (hv : env.VerifySchnorr reader.Public read.File sig = none) :
    checkRead env sb reader id name
      = .returned (some { File := id, Read := sb.Hash, EncKey := read.EncKey,
                          Cred := reader }, none) := by
  simp [checkRead, hd, hp, hs, hv]

theorem checkRead_token {σ : Type} (env : Env σ) (sb : SkipBlock) (reader : Credential)
    (id : SkipBlockID) (name : String) (tok : FileRequest) (e : Option GoError)
    (h : checkRead env sb reader id name = .returned (some tok, e)) :
    ∃ read sig, env.Unmarshal sb.Data = .ok (.dataWlr ⟨some read⟩) ∧
      read.Pseudonym = name ∧ read.Signature = some sig ∧
      env.VerifySchnorr reader.Public read.File sig = none ∧
      tok = { File := id, Read := sb.Hash, EncKey := read.EncKey, Cred := reader } ∧
      e = none := by
  unfold checkRead at h
  cases hd : env.Unmarshal sb.Data with
  | error err => simp [hd] at h
  | ok m =>
    cases m with
    | logread lr => simp [hd] at h
    | other t => simp [hd] at h
    | dataWlr dw =>
      obtain ⟨r⟩ := dw
      cases r with
      | none => simp [hd] at h
      | some read =>
        by_cases hp : read.Pseudonym = name
        · cases hs : read.Signature with
          | none => simp [hd, hp, hs] at h
          | some sig =>
            by_cases hv : env.VerifySchnorr reader.Public read.File sig = none
            · simp [hd, hp, hs, hv] at h
              exact ⟨read, sig, rfl, hp, hs, hv, h.1.symm, h.2.symm⟩
            · simp [hd, hp, hs, hv] at h
        · simp [hd, hp] at h

theorem checkRead_rejects {σ : Type} (env : Env σ) (sb : SkipBlock) (reader : Credential)
    (id : SkipBlockID) (name : String)
    (h : (∀ dw, env.Unmarshal sb.Data ≠ .ok (.dataWlr dw)) ∨
         (∃ read, env.Unmarshal sb.Data = .ok (.dataWlr ⟨some read⟩) ∧
            read.Pseudonym ≠ name) ∨
         (∃ read sig, env.Unmarshal sb.Data = .ok (.dataWlr ⟨some read⟩) ∧
            read.Signature = some sig ∧
            env.VerifySchnorr reader.Public read.File sig ≠ none)) :
    ∃ err, checkRead env sb reader id name = .returned (none, some err) := by
  unfold checkRead
  rcases h with h | ⟨read, hd, hp⟩ | ⟨read, sig, hd, hs, hv⟩
  · cases hd : env.Unmarshal sb.Data with
    | error err => exact ⟨err, rfl⟩
    | ok m =>
      cases m with
      | logread lr => exact ⟨_, rfl⟩
      | other t => exact ⟨_, rfl⟩
      | dataWlr dw => exact absurd hd (h dw)
  · simp [hd, hp]
  · by_cases hp : read.Pseudonym = name
    · simp [hd, hp, hs, hv]
    · simp [hd, hp]

/-- C3: `RequestFile` returns a `FileRequest` only if a reader credential is
registered for `name`, the ledger committed a block, that block decodes to a read
record whose `Pseudonym` is `name` and whose signature over the record's file
reference verifies against the public key of that credential.  If the committed
block does not decode to a `DataWlr`, or its read record carries another pseudonym,
or carries a signature that does not verify, `RequestFile` returns an error and a
nil `FileRequest`. -/
theorem RequestFile_token_only_if_verified {σ : Type} (env : Env σ) (s : State σ)
    (id : SkipBlockID) (name : String) :
    (∀ tok e, (RequestFile env s id name).1 = .returned (some tok, e) →
      ∃ reader sb read sig,
        (s.lr.ACL.Readers.FindPseudo name).1 = some reader ∧
        (env.ReadRequest s.world s.lr.cl s.lr.LatestWlr reader id).1 = .ok sb ∧
        env.Unmarshal sb.Data = .ok (.dataWlr ⟨some read⟩) ∧
        read.Pseudonym = name ∧ read.Signature = some sig ∧
        env.VerifySchnorr reader.Public read.File sig = none) ∧
    (∀ reader sb,
      (s.lr.ACL.Readers.FindPseudo name).1 = some reader →
      (env.ReadRequest s.world s.lr.cl s.lr.LatestWlr reader id).1 = .ok sb →
      ((∀ dw, env.Unmarshal sb.Data ≠ .ok (.dataWlr dw)) ∨
       (∃ read, env.Unmarshal sb.Data = .ok (.dataWlr ⟨some read⟩) ∧
          read.Pseudonym ≠ name) ∨
       (∃ read sig, env.Unmarshal sb.Data = .ok (.dataWlr ⟨some read⟩) ∧
          read.Signature = some sig ∧
          env.VerifySchnorr reader.Public read.File sig ≠ none)) →
      ∃ err, (RequestFile env s id name).1 = .returned (none, some err)) := by
  constructor
  · intro tok e h
    unfold RequestFile at h
    cases hr : (s.lr.ACL.Readers.FindPseudo name).1 with
    | none => simp [hr] at h
    | some reader =>
      cases hc : (env.ReadRequest s.world s.lr.cl s.lr.LatestWlr reader id).1 with
      | error cerr => simp [hr, hc] at h
      | ok sb =>
        simp only [hr, hc] at h
        obtain ⟨read, sig, hd, hp, hs, hv, _, _⟩ :=
          checkRead_token env sb reader id name tok e h
        exact ⟨reader, sb, read, sig, rfl, hc, hd, hp, hs, hv⟩
  · intro reader sb hr hc hbad
    obtain ⟨err, herr⟩ := checkRead_rejects env sb reader id name hbad
    refine ⟨err, ?_⟩
    unfold RequestFile
    simp only [hr, hc]
    exact herr

theorem RequestFile_token_only_if_verified_witness :
    (∃ reader sb read sig,
        (demoState.lr.ACL.Readers.FindPseudo "carol").1 = some reader ∧
        ((demoEnv true [1] true).ReadRequest demoState.world demoState.lr.cl
          demoState.lr.LatestWlr reader [5]).1 = .ok sb ∧
        (demoEnv true [1] true).Unmarshal sb.Data = .ok (.dataWlr ⟨some read⟩) ∧
        read.Pseudonym = "carol" ∧ read.Signature = some sig ∧
        (demoEnv true [1] true).VerifySchnorr reader.Public read.File sig = none) ∧
    (∃ err, (RequestFile (demoEnv true [2] true) demoState [5] "carol").1
        = .returned (none, some err)) ∧
    (∃ err, (RequestFile (demoEnv true [3] true) demoState [5] "carol").1
        = .returned (none, some err)) ∧
    (∃ err, (RequestFile (demoEnv true [6] true) demoState [5] "carol").1
        = .returned (none, some err)) :=
  ⟨(RequestFile_token_only_if_verified (demoEnv true [1] true) demoState [5] "carol").1
      ⟨[5], [2], ⟨"carol", 102⟩, [42]⟩ none (by decide),
   (RequestFile_token_only_if_verified (demoEnv true [2] true) demoState [5] "carol").2
      ⟨"carol", 102⟩ (blockAt 2 [1, 2, 3] [2]) (by decide) rfl
      (Or.inr (Or.inl ⟨⟨"mallory", [5], [42], some [9]⟩, rfl, by decide⟩)),
   (RequestFile_token_only_if_verified (demoEnv true [3] true) demoState [5] "carol").2
      ⟨"carol", 102⟩ (blockAt 2 [1, 2, 3] [3]) (by decide) rfl
      (Or.inr (Or.inr ⟨⟨"carol", [5], [42], some [8]⟩, [8], rfl, rfl, by decide⟩)),
   (RequestFile_token_only_if_verified (demoEnv true [6] true) demoState [5] "carol").2
      ⟨"carol", 102⟩ (blockAt 2 [1, 2, 3] [6]) (by decide) rfl
      (Or.inl (fun dw h =>
        Message.noConfusion (Except.ok.inj
          ((rfl : (demoEnv true [6] true).Unmarshal (blockAt 2 [1, 2, 3] [6]).Data
            = .ok (.other 0)).symm.trans h))))⟩

/-! ## User management -/

theorem addToACL_known {σ : Type} (env : Env σ) (w : σ) (acl : DataACL) (name : String)
    (userType : Int) :
    (addToACL env w acl name userType).isSome
      ↔ userType = UserAdmin ∨ userType = UserWriter ∨ userType = UserReader := by
  unfold addToACL
  split_ifs with h0 h1 h2 <;> simp [*]

theorem commitACL_error {σ : Type} (env : Env σ) (s : State σ) (cerr : ClientError)
    (h : (env.EvolveACL s.world s.lr.cl s.lr.LatestACL s.lr.ACL s.lr.Admin).1
      = .error cerr) :
    (commitACL env s).1 = some (.ofClient cerr) ∧ (commitACL env s).2.lr = s.lr := by
  simp [commitACL, h]

theorem commitACL_ok {σ : Type} (env : Env σ) (s : State σ) (reply : EvolveACLReply)
    (h : (env.EvolveACL s.world s.lr.cl s.lr.LatestACL s.lr.ACL s.lr.Admin).1
      = .ok reply) :
    (commitACL env s).1 = none ∧
    (commitACL env s).2.lr = { s.lr with LatestACL := reply.SB } := by
  simp [commitACL, h]

/-- C4, as the code behaves: when the ledger refuses the commit issued by `AddUser`
with a known user type or by `DelUser`, the call returns that error and `LatestACL`
stays, but the registry in memory is the one that was submitted, with the
`AddPseudo` or `DelPseudo` of the call applied; it is not rolled back. -/
theorem AddUser_DelUser_refused_keeps_mutation {σ : Type} (env : Env σ) (s : State σ)
    (name : String) (userType : Int) (cerr : ClientError) :
    (∀ acl w, addToACL env s.world s.lr.ACL name userType = some (acl, w) →
      (env.EvolveACL w s.lr.cl s.lr.LatestACL acl s.lr.Admin).1 = .error cerr →
      (AddUser env s name userType).1 = some (.ofClient cerr) ∧
      (AddUser env s name userType).2.lr.ACL = acl ∧
      (AddUser env s name userType).2.lr.LatestACL = s.lr.LatestACL) ∧
    ((env.EvolveACL s.world s.lr.cl s.lr.LatestACL (delFromACL s.lr.ACL name)
        s.lr.Admin).1 = .error cerr →
      (DelUser env s name).1 = some (.ofClient cerr) ∧
      (DelUser env s name).2.lr.ACL = delFromACL s.lr.ACL name ∧
      (DelUser env s name).2.lr.LatestACL = s.lr.LatestACL) := by
  constructor
  · intro acl w ha he
    have h := commitACL_error env
      { s with lr := { s.lr with ACL := acl }, world := w } cerr he
    unfold AddUser
    rw [ha]
    exact ⟨h.1, by rw [h.2], by rw [h.2]⟩
  · intro he
    have h := commitACL_error env
      { s with lr := { s.lr with ACL := delFromACL s.lr.ACL name } } cerr he
    unfold DelUser
    exact ⟨h.1, by rw [h.2], by rw [h.2]⟩

theorem AddUser_DelUser_refused_keeps_mutation_witness :
    ((AddUser (demoEnv false [1] true) demoState "dave" UserWriter).1
        = some (.ofClient ⟨4100, "commit refused"⟩) ∧
      (AddUser (demoEnv false [1] true) demoState "dave" UserWriter).2.lr.ACL
        = { demoState.lr.ACL with Writers := ⟨[⟨"bob", 101⟩, ⟨"dave", 102⟩]⟩ } ∧
      (AddUser (demoEnv false [1] true) demoState "dave" UserWriter).2.lr.LatestACL
        = demoState.lr.LatestACL) ∧
    ((DelUser (demoEnv false [1] true) demoState "bob").1
        = some (.ofClient ⟨4100, "commit refused"⟩) ∧
      (DelUser (demoEnv false [1] true) demoState "bob").2.lr.ACL
        = delFromACL demoState.lr.ACL "bob" ∧
      (DelUser (demoEnv false [1] true) demoState "bob").2.lr.LatestACL
        = demoState.lr.LatestACL) :=
  ⟨(AddUser_DelUser_refused_keeps_mutation (demoEnv false [1] true) demoState "dave"
      UserWriter ⟨4100, "commit refused"⟩).1 _ 3 rfl rfl,
   (AddUser_DelUser_refused_keeps_mutation (demoEnv false [1] true) demoState "bob"
      UserWriter ⟨4100, "commit refused"⟩).2 rfl⟩

/-- C4, refuted as stated: the conodes refuse every commit; `AddUser("dave",
UserWriter)` and `DelUser("bob")` both return the error of the ledger, and the
registry in memory differs from the registry before the call: "dave" has been
added to the writers, "bob" has been removed from them. -/
theorem AddUser_DelUser_no_rollback :
    (AddUser (demoEnv false [1] true) demoState "dave" UserWriter).1
        = some (.ofClient ⟨4100, "commit refused"⟩) ∧
    (AddUser (demoEnv false [1] true) demoState "dave" UserWriter).2.lr.ACL.Writers.List
        = [⟨"bob", 101⟩, ⟨"dave", 102⟩] ∧
    (AddUser (demoEnv false [1] true) demoState "dave" UserWriter).2.lr.ACL
        ≠ demoState.lr.ACL ∧
    (DelUser (demoEnv false [1] true) demoState "bob").1
        = some (.ofClient ⟨4100, "commit refused"⟩) ∧
    (DelUser (demoEnv false [1] true) demoState "bob").2.lr.ACL.Writers.List = [] ∧
    (DelUser (demoEnv false [1] true) demoState "bob").2.lr.ACL ≠ demoState.lr.ACL := by
  refine ⟨by decide, by decide, by decide, by decide, by decide, by decide⟩

theorem delFromACL_single_admin (acl : DataACL) (name : String)
    (h : acl.Admins.List.length ≤ 1) : (delFromACL acl name).Admins = acl.Admins := by
  unfold delFromACL
  have : ¬ acl.Admins.List.length > 1 := by omega
  simp [this]

/-- C5: in a session whose `Admins` list holds exactly one credential, `DelUser`
called with the pseudonym of that admin leaves `ACL.Admins` unchanged.  The refused
removal is not an error: `DelUser` returns nil when `EvolveACL` succeeds, and any
error it returns is the error of `EvolveACL`. -/
theorem DelUser_only_admin {σ : Type} (env : Env σ) (s : State σ) (name : String)
    (c : Credential) (hone : s.lr.ACL.Admins.List = [c]) (_hname : c.Pseudonym = name) :
    (DelUser env s name).2.lr.ACL.Admins = s.lr.ACL.Admins ∧
    (DelUser env s name).2.lr.ACL.Admins.List = [c] ∧
    (∀ reply,
      (env.EvolveACL s.world s.lr.cl s.lr.LatestACL (delFromACL s.lr.ACL name)
        s.lr.Admin).1 = .ok reply →
      (DelUser env s name).1 = none) ∧
    (∀ e, (DelUser env s name).1 = some e →
      ∃ cerr,
        (env.EvolveACL s.world s.lr.cl s.lr.LatestACL (delFromACL s.lr.ACL name)
          s.lr.Admin).1 = .error cerr ∧ e = .ofClient cerr) := by
  have hlen : s.lr.ACL.Admins.List.length ≤ 1 := by simp [hone]
  have hadm := delFromACL_single_admin s.lr.ACL name hlen
  have hkeep : (DelUser env s name).2.lr.ACL.Admins = s.lr.ACL.Admins := by
    unfold DelUser commitACL
    cases he : (env.EvolveACL s.world s.lr.cl s.lr.LatestACL (delFromACL s.lr.ACL name)
        s.lr.Admin).1 with
    | error cerr => simp [he, hadm]
    | ok reply => simp [he, hadm]
  refine ⟨hkeep, by rw [hkeep, hone], ?_, ?_⟩
  · intro reply he
    exact (commitACL_ok env
      { s with lr := { s.lr with ACL := delFromACL s.lr.ACL name } } reply he).1
  · intro e h
    cases he : (env.EvolveACL s.world s.lr.cl s.lr.LatestACL (delFromACL s.lr.ACL name)
        s.lr.Admin).1 with
    | error cerr =>
      have h1 := (commitACL_error env
        { s with lr := { s.lr with ACL := delFromACL s.lr.ACL name } } cerr he).1
      unfold DelUser at h
      rw [h1] at h
      exact ⟨cerr, rfl, (Option.some.inj h).symm⟩
    | ok reply =>
      have h1 := (commitACL_ok env
        { s with lr := { s.lr with ACL := delFromACL s.lr.ACL name } } reply he).1
      unfold DelUser at h
      rw [h1] at h
      cases h

theorem DelUser_only_admin_witness :
    demoState.lr.ACL.Admins.List = [⟨"alice", 100⟩] ∧
    (DelUser (demoEnv true [1] true) demoState "alice").2.lr.ACL.Admins.List
      = [⟨"alice", 100⟩] ∧
    (DelUser (demoEnv true [1] true) demoState "alice").1 = none :=
  ⟨rfl,
   (DelUser_only_admin (demoEnv true [1] true) demoState "alice" ⟨"alice", 100⟩ rfl rfl).2.1,
   (DelUser_only_admin (demoEnv true [1] true) demoState "alice" ⟨"alice", 100⟩ rfl
      rfl).2.2.1 ⟨blockAt 2 [1, 2, 3] [0]⟩ rfl⟩

/-- C7: for `AddUser` with a known user type and for `DelUser`, `LatestACL` after the
call is the block `reply.SB` returned by the ledger when the commit succeeds and is
`LatestACL` before the call when the commit fails; `LatestWlr` is unchanged in both
cases. -/
theorem AddUser_DelUser_LatestACL {σ : Type} (env : Env σ) (s : State σ) (name : String)
    (userType : Int)
    (hknown : userType = UserAdmin ∨ userType = UserWriter ∨ userType = UserReader) :
    (∃ acl w, addToACL env s.world s.lr.ACL name userType = some (acl, w) ∧
      (∀ reply, (env.EvolveACL w s.lr.cl s.lr.LatestACL acl s.lr.Admin).1 = .ok reply →
        (AddUser env s name userType).2.lr.LatestACL = reply.SB ∧
        (AddUser env s name userType).2.lr.LatestWlr = s.lr.LatestWlr) ∧
      (∀ cerr, (env.EvolveACL w s.lr.cl s.lr.LatestACL acl s.lr.Admin).1 = .error cerr →
        (AddUser env s name userType).2.lr.LatestACL = s.lr.LatestACL ∧
        (AddUser env s name userType).2.lr.LatestWlr = s.lr.LatestWlr)) ∧
    (∀ reply,
      (env.EvolveACL s.world s.lr.cl s.lr.LatestACL (delFromACL s.lr.ACL name)
        s.lr.Admin).1 = .ok reply →
      (DelUser env s name).2.lr.LatestACL = reply.SB ∧
      (DelUser env s name).2.lr.LatestWlr = s.lr.LatestWlr) ∧
    (∀ cerr,
      (env.EvolveACL s.world s.lr.cl s.lr.LatestACL (delFromACL s.lr.ACL name)
        s.lr.Admin).1 = .error cerr →
      (DelUser env s name).2.lr.LatestACL = s.lr.LatestACL ∧
      (DelUser env s name).2.lr.LatestWlr = s.lr.LatestWlr) := by
  refine ⟨?_, ?_, ?_⟩
  · have hs := (addToACL_known env s.world s.lr.ACL name userType).mpr hknown
    cases ha : addToACL env s.world s.lr.ACL name userType with
    | none => simp [ha] at hs
    | some p =>
      obtain ⟨acl, w⟩ := p
      refine ⟨acl, w, rfl, ?_, ?_⟩
      · intro reply he
        have h := commitACL_ok env
          { s with lr := { s.lr with ACL := acl }, world := w } reply he
        unfold AddUser
        rw [ha]
        exact ⟨by rw [h.2], by rw [h.2]⟩
      · intro cerr he
        have h := commitACL_error env
          { s with lr := { s.lr with ACL := acl }, world := w } cerr he
        unfold AddUser
        rw [ha]
        exact ⟨by rw [h.2], by rw [h.2]⟩
  · intro reply he
    have h := commitACL_ok env
      { s with lr := { s.lr with ACL := delFromACL s.lr.ACL name } } reply he
    unfold DelUser
    exact ⟨by rw [h.2], by rw [h.2]⟩
  · intro cerr he
    have h := commitACL_error env
      { s with lr := { s.lr with ACL := delFromACL s.lr.ACL name } } cerr he
    unfold DelUser
    exact ⟨by rw [h.2], by rw [h.2]⟩

theorem AddUser_DelUser_LatestACL_witness :
    (UserReader = UserAdmin ∨ UserReader = UserWriter ∨ UserReader = UserReader) ∧
    (DelUser (demoEnv true [1] true) demoState "carol").2.lr.LatestACL
      = blockAt 2 [1, 2, 3] [0] ∧
    (DelUser (demoEnv false [1] true) demoState "carol").2.lr.LatestACL
      = demoState.lr.LatestACL ∧
    (∃ acl w, addToACL (demoEnv true [1] true) demoState.world demoState.lr.ACL "erin"
        UserReader = some (acl, w)) :=
  ⟨Or.inr (Or.inr rfl),
   ((AddUser_DelUser_LatestACL (demoEnv true [1] true) demoState "carol" UserReader
      (Or.inr (Or.inr rfl))).2.1 ⟨blockAt 2 [1, 2, 3] [0]⟩ rfl).1,
   ((AddUser_DelUser_LatestACL (demoEnv false [1] true) demoState "carol" UserReader
      (Or.inr (Or.inr rfl))).2.2 ⟨4100, "commit refused"⟩ rfl).1,
   (AddUser_DelUser_LatestACL (demoEnv true [1] true) demoState "erin" UserReader
      (Or.inr (Or.inr rfl))).1.elim (fun acl h => h.elim (fun w hw => ⟨acl, w, hw.1⟩))⟩

/-! ## Writing and reading files -/

/-- C8: for a name with a credential in `Writers`: when the ledger accepts the write
request, `AddFile` returns the `Hash` of the committed block with a nil error,
`LatestWlr` becomes that block, `LatestACL`, the registry and the admin are
unchanged, and exactly one write request has been sent; when the ledger rejects it,
`AddFile` returns that error and the session, `LatestWlr` included, is unchanged. -/
theorem AddFile_known_writer {σ : Type} (env : Env σ) (s : State σ)
    (encData encKey : Bytes) (name : String) (writer : Credential)
    (hw : (s.lr.ACL.Writers.FindPseudo name).1 = some writer) :
    (∀ sb,
      (env.WriteRequest s.world s.lr.cl s.lr.LatestWlr encData encKey writer).1 = .ok sb →
      (AddFile env s encData encKey name).1 = (sb.Hash, none) ∧
      (AddFile env s encData encKey name).2.lr.LatestWlr = sb ∧
      (AddFile env s encData encKey name).2.lr.LatestACL = s.lr.LatestACL ∧
      (AddFile env s encData encKey name).2.lr.ACL = s.lr.ACL ∧
      (AddFile env s encData encKey name).2.lr.Admin = s.lr.Admin ∧
      (AddFile env s encData encKey name).2.calls
        = s.calls ++ [Call.WriteRequest s.lr.LatestWlr encData encKey writer]) ∧
    (∀ cerr,
      (env.WriteRequest s.world s.lr.cl s.lr.LatestWlr encData encKey writer).1
        = .error cerr →
      (AddFile env s encData encKey name).1 = ([], some (.ofClient cerr)) ∧
      (AddFile env s encData encKey name).2.lr.LatestWlr = s.lr.LatestWlr ∧
      (AddFile env s encData encKey name).2.lr = s.lr) := by
  constructor
  · intro sb h
    simp [AddFile, hw, h]
  · intro cerr h
    simp [AddFile, hw, h]

theorem AddFile_known_writer_witness :
    (demoState.lr.ACL.Writers.FindPseudo "bob").1 = some ⟨"bob", 101⟩ ∧
    (AddFile (demoEnv true [1] true) demoState [7] [8] "bob").1 = ([2], none) ∧
    (AddFile (demoEnv true [1] true) demoState [7] [8] "bob").2.lr.LatestWlr
      = blockAt 2 [1, 2, 3] [7] ∧
    (AddFile (demoEnv false [1] true) demoState [7] [8] "bob").1
      = ([], some (.ofClient ⟨4100, "commit refused"⟩)) ∧
    (AddFile (demoEnv false [1] true) demoState [7] [8] "bob").2.lr.LatestWlr
      = demoState.lr.LatestWlr :=
  ⟨by decide,
   ((AddFile_known_writer (demoEnv true [1] true) demoState [7] [8] "bob" ⟨"bob", 101⟩
      (by decide)).1 (blockAt 2 [1, 2, 3] [7]) rfl).1,
   ((AddFile_known_writer (demoEnv true [1] true) demoState [7] [8] "bob" ⟨"bob", 101⟩
      (by decide)).1 (blockAt 2 [1, 2, 3] [7]) rfl).2.1,
   ((AddFile_known_writer (demoEnv false [1] true) demoState [7] [8] "bob" ⟨"bob", 101⟩
      (by decide)).2 ⟨4100, "commit refused"⟩ rfl).1,
   ((AddFile_known_writer (demoEnv false [1] true) demoState [7] [8] "bob" ⟨"bob", 101⟩
      (by decide)).2 ⟨4100, "commit refused"⟩ rfl).2.1⟩

theorem RequestFile_commit {σ : Type} (env : Env σ) (s : State σ) (id : SkipBlockID)
    (name : String) (reader : Credential) (sb : SkipBlock)
    (hr : (s.lr.ACL.Readers.FindPseudo name).1 = some reader)
    (hc : (env.ReadRequest s.world s.lr.cl s.lr.LatestWlr reader id).1 = .ok sb) :
    RequestFile env s id name
      = (checkRead env sb reader id name,
          { lr := { s.lr with LatestWlr := sb },
            world := (env.ReadRequest s.world s.lr.cl s.lr.LatestWlr reader id).2,
            calls := s.calls ++ [Call.ReadRequest s.lr.LatestWlr reader id] }) := by
  simp [RequestFile, hr, hc]

/-- C9: for a name with the credential `reader` in `Readers`, a `RequestFile(id, name)`
whose commit yields the block `sb` and whose check of `sb` succeeds returns a token
with `File = id`, `Read = sb.Hash`, `Cred = reader` and `EncKey` the `EncKey` of the
committed read record, and `LatestWlr` becomes `sb`.  A second such request by the
same reader for the same file is committed on top of `sb`, yields its own block
`sb2`, and returns a token with `Read = sb2.Hash`; both requests are in the call
log. -/
theorem RequestFile_token {σ : Type} (env : Env σ) (s : State σ) (id : SkipBlockID)
    (name : String) (reader : Credential) (sb : SkipBlock) (read : DataWlrRead)
    (sig : SchnorrSig)
    (hr : (s.lr.ACL.Readers.FindPseudo name).1 = some reader)
    (hc : (env.ReadRequest s.world s.lr.cl s.lr.LatestWlr reader id).1 = .ok sb)
    (hd : env.Unmarshal sb.Data = .ok (.dataWlr ⟨some read⟩))
    (hp : read.Pseudonym = name) (hs : read.Signature = some sig)
    (hv : env.VerifySchnorr reader.Public read.File sig = none) :
    (RequestFile env s id name).1
      = .returned (some { File := id, Read := sb.Hash, Cred := reader,
                          EncKey := read.EncKey }, none) ∧
    (RequestFile env s id name).2.lr.LatestWlr = sb ∧
    (RequestFile env s id name).2.lr.ACL = s.lr.ACL ∧
    (RequestFile env s id name).2.lr.LatestACL = s.lr.LatestACL ∧
    (∀ sb2 read2 sig2,
      (env.ReadRequest (RequestFile env s id name).2.world s.lr.cl sb reader id).1
        = .ok sb2 →
      env.Unmarshal sb2.Data = .ok (.dataWlr ⟨some read2⟩) →
      read2.Pseudonym = name → read2.Signature = some sig2 →
      env.VerifySchnorr reader.Public read2.File sig2 = none →
      (RequestFile env (RequestFile env s id name).2 id name).1
        = .returned (some { File := id, Read := sb2.Hash, Cred := reader,
                            EncKey := read2.EncKey }, none) ∧
      (RequestFile env (RequestFile env s id name).2 id name).2.lr.LatestWlr = sb2 ∧
      (RequestFile env (RequestFile env s id name).2 id name).2.calls
        = s.calls ++ [Call.ReadRequest s.lr.LatestWlr reader id,
                      Call.ReadRequest sb reader id]) := by
  have h1 := RequestFile_commit env s id name reader sb hr hc
  have hk := checkRead_accepts env sb reader id name read sig hd hp hs hv
  refine ⟨by rw [h1, hk], by rw [h1], by rw [h1], by rw [h1], ?_⟩
  intro sb2 read2 sig2 hc2 hd2 hp2 hs2 hv2
  rw [h1] at hc2 ⊢
  have h2 := RequestFile_commit env
    { lr := { s.lr with LatestWlr := sb },
      world := (env.ReadRequest s.world s.lr.cl s.lr.LatestWlr reader id).2,
      calls := s.calls ++ [Call.ReadRequest s.lr.LatestWlr reader id] }
    id name reader sb2 hr hc2
  have hk2 := checkRead_accepts env sb2 reader id name read2 sig2 hd2 hp2 hs2 hv2
  rw [h2, hk2]
  simp

theorem RequestFile_token_witness :
    (RequestFile (demoEnv true [1] true) demoState [5] "carol").1
      = .returned (some { File := [5], Read := [2], Cred := ⟨"carol", 102⟩,
                          EncKey := [42] }, none) ∧
    (RequestFile (demoEnv true [1] true) demoState [5] "carol").2.lr.LatestWlr
      = blockAt 2 [1, 2, 3] [1] ∧
    (RequestFile (demoEnv true [1] true)
        (RequestFile (demoEnv true [1] true) demoState [5] "carol").2 [5] "carol").1
      = .returned (some { File := [5], Read := [3], Cred := ⟨"carol", 102⟩,
                          EncKey := [42] }, none) :=
  ⟨(RequestFile_token (demoEnv true [1] true) demoState [5] "carol" ⟨"carol", 102⟩
      (blockAt 2 [1, 2, 3] [1]) ⟨"carol", [5], [42], some [9]⟩ [9]
      (by decide) rfl rfl rfl rfl rfl).1,
   (RequestFile_token (demoEnv true [1] true) demoState [5] "carol" ⟨"carol", 102⟩
      (blockAt 2 [1, 2, 3] [1]) ⟨"carol", [5], [42], some [9]⟩ [9]
      (by decide) rfl rfl rfl rfl rfl).2.1,
   ((RequestFile_token (demoEnv true [1] true) demoState [5] "carol" ⟨"carol", 102⟩
      (blockAt 2 [1, 2, 3] [1]) ⟨"carol", [5], [42], some [9]⟩ [9]
      (by decide) rfl rfl rfl rfl rfl).2.2.2.2
      (blockAt 3 [1, 2, 3] [1]) ⟨"carol", [5], [42], some [9]⟩ [9]
      rfl rfl rfl rfl rfl).1⟩

/-- The named result `err` of `ReadFile` is the error of `GetFile` and nothing else. -/
theorem ReadFile_err {σ : Type} (env : Env σ) (s : State σ) (read : FileRequest) :
    (ReadFile env s read).1.err
      = (env.GetFile s.world s.lr.cl s.lr.LatestWlr.Roster read.File).1.2.map
          GoError.ofClient := by
  unfold ReadFile
  cases h : (env.GetFile s.world s.lr.cl s.lr.LatestWlr.Roster read.File).1.2 <;> simp [h]

/-- C6, where the code departs from it: the file is served and the re-encryption
request fails with a `ClientError`, yet `ReadFile` returns a nil error, together
with the file and the empty key the failed request handed back. -/
theorem ReadFile_drops_decrypt_error :
    ((demoEnv true [1] false).GetFile 2 (some ⟨0⟩) [1, 2, 3] [5]).1.2 = none ∧
    ((demoEnv true [1] false).DecryptKeyRequest 2 (some ⟨0⟩) [1, 2, 3] [2]
        ⟨"carol", 102⟩).1.2 = some ⟨4101, "re-encryption failed"⟩ ∧
    (ReadFile (demoEnv true [1] false) demoState
        { File := [5], Read := [2], Cred := ⟨"carol", 102⟩, EncKey := [42] }).1
      = { file := [77], key := [], err := none } ∧
    (ReadFile (demoEnv true [1] false) demoState
        { File := [5], Read := [2], Cred := ⟨"carol", 102⟩, EncKey := [42] }).2.calls
      = [Call.GetFile [1, 2, 3] [5],
         Call.DecryptKeyRequest [1, 2, 3] [2] ⟨"carol", 102⟩] := by
  refine ⟨by decide, by decide, by decide, by decide⟩

/-! ## Storing a session -/

theorem credOfWire_credWire (c : Credential) : credOfWire (credWire c) = c := by
  obtain ⟨p, k⟩ := c
  simp [credOfWire, credWire, List.map_map, Function.comp_def]

theorem blockOfWire_blockWire (b : SkipBlock) : blockOfWire (blockWire b) = b := rfl

theorem logreadOfWire_logreadWire (lr : Logread) :
    logreadOfWire (logreadWire lr) = { lr with cl := none } := by
  obtain ⟨a, w, ⟨⟨as⟩, ⟨ws⟩, ⟨rs⟩⟩, ad, c⟩ := lr
  have hmap : ∀ l : List Credential, (l.map credWire).map credOfWire = l := by
    intro l
    rw [List.map_map]
    have : credOfWire ∘ credWire = id := funext credOfWire_credWire
    rw [this, List.map_id]
  simp [logreadOfWire, logreadWire, blockOfWire_blockWire, credOfWire_credWire, hmap]

theorem wireDecode_wireCode (w : Wire) : wireDecode (wireCode w) = some w := by
  unfold wireDecode wireCode
  exact Encodable.encodek w

theorem demoUnmarshal_pair (t n : Nat) :
    demoUnmarshal [t, n]
      = (match wireDecode n with
        | some w => .ok (.logread (logreadOfWire w))
        | none => .error (.ofCodec "cannot decode")) := rfl

theorem demoUnmarshal_demoMarshal (x : Logread) :
    demoUnmarshal (demoMarshal x).1 = .ok (.logread { x with cl := none }) := by
  show demoUnmarshal [100, wireCode (logreadWire x)] = _
  rw [demoUnmarshal_pair, wireDecode_wireCode]
  show Except.ok (Message.logread (logreadOfWire (logreadWire x))) = _
  rw [logreadOfWire_logreadWire]

theorem demoEnv_CodecInverts (accept : Bool) (payload : Bytes) (reenc : Bool) :
    CodecInverts (demoEnv accept payload reenc) :=
  fun x => ⟨rfl, demoUnmarshal_demoMarshal x⟩

/-- C10: when the codec inverts itself on sessions, for every session `lr` the call
`lr.Marshal()` returns bytes and a nil error, and `NewLogreadUnmarshal` on those
bytes returns a nil error and a session whose `ACL` and `Admin` are those of `lr`,
whose `LatestACL` and `LatestWlr` are those of `lr` in every field except `Data`,
which is empty, and whose client is a freshly constructed one. -/
theorem Marshal_NewLogreadUnmarshal_roundtrip {σ : Type} (env : Env σ)
    (hcodec : CodecInverts env) (lr : Logread) :
    (Marshal env lr).1.2 = none ∧
    ∃ lr2, NewLogreadUnmarshal env (Marshal env lr).1.1 = (some lr2, none) ∧
      lr2.ACL = lr.ACL ∧ lr2.Admin = lr.Admin ∧
      lr2.LatestACL = { lr.LatestACL with Data := [] } ∧
      lr2.LatestWlr = { lr.LatestWlr with Data := [] } ∧
      lr2.cl = some env.NewClient := by
  have h := hcodec (Marshal env lr).2
  refine ⟨h.1, ?_⟩
  have hb : (Marshal env lr).1 = env.Marshal (Marshal env lr).2 := rfl
  unfold NewLogreadUnmarshal
  rw [hb, h.2]
  exact ⟨_, rfl, rfl, rfl, rfl, rfl, rfl⟩

theorem Marshal_NewLogreadUnmarshal_roundtrip_witness :
    CodecInverts (demoEnv true [1] true) ∧
    (Marshal (demoEnv true [1] true) demoLogread).1.2 = none ∧
    ∃ lr2, NewLogreadUnmarshal (demoEnv true [1] true)
        (Marshal (demoEnv true [1] true) demoLogread).1.1 = (some lr2, none) ∧
      lr2.ACL = demoLogread.ACL ∧ lr2.Admin = demoLogread.Admin ∧
      lr2.LatestACL = blockAt 0 [1, 2, 3] [] ∧
      lr2.LatestWlr = blockAt 1 [1, 2, 3] [] ∧
      lr2.cl = some ⟨1⟩ :=
  ⟨demoEnv_CodecInverts true [1] true,
   Marshal_NewLogreadUnmarshal_roundtrip (demoEnv true [1] true)
     (demoEnv_CodecInverts true [1] true) demoLogread⟩

theorem NewLogreadUnmarshal_of_decode {σ : Type} (env : Env σ) (data : Bytes)
    (lr0 : Logread) (h : env.Unmarshal data = .ok (.logread lr0)) :
    NewLogreadUnmarshal env data = (some { lr0 with cl := some env.NewClient }, none) := by
  simp [NewLogreadUnmarshal, h]

/-- C11: `NewLogreadUnmarshal` fails closed.  When the codec cannot decode the bytes
it returns the error of the codec and a nil session; when the bytes decode to a
message that is not a `*Logread` it returns an error and a nil session; it returns a
session only when the bytes decode to a `*Logread`, and then the error is nil and the
session is the decoded one with a freshly constructed client attached. -/
theorem NewLogreadUnmarshal_fails_closed {σ : Type} (env : Env σ) (data : Bytes) :
    (∀ err, env.Unmarshal data = .error err →
      NewLogreadUnmarshal env data = (none, some err)) ∧
    (∀ m, env.Unmarshal data = .ok m → (∀ lr0, m ≠ .logread lr0) →
      NewLogreadUnmarshal env data
        = (none, some (.errorsNew "this is not a Logread-slice"))) ∧
    (∀ lr e, NewLogreadUnmarshal env data = (some lr, e) →
      ∃ lr0, env.Unmarshal data = .ok (.logread lr0) ∧
        lr = { lr0 with cl := some env.NewClient } ∧
        lr.cl = some env.NewClient ∧ e = none) := by
  refine ⟨?_, ?_, ?_⟩
  · intro err h
    simp [NewLogreadUnmarshal, h]
  · intro m h hm
    unfold NewLogreadUnmarshal
    rw [h]
    cases m with
    | logread lr0 => exact absurd rfl (hm lr0)
    | dataWlr dw => rfl
    | other t => rfl
  · intro lr e h
    unfold NewLogreadUnmarshal at h
    cases hd : env.Unmarshal data with
    | error err => simp [hd] at h
    | ok m =>
      cases m with
      | logread lr0 =>
        simp only [hd, Prod.mk.injEq, Option.some.injEq] at h
        exact ⟨lr0, rfl, h.1.symm, by rw [← h.1], h.2.symm⟩
      | dataWlr dw => simp [hd] at h
      | other t => simp [hd] at h

theorem NewLogreadUnmarshal_fails_closed_witness :
    NewLogreadUnmarshal (demoEnv true [1] true) [7, 7, 7]
      = (none, some (.ofCodec "cannot decode")) ∧
    NewLogreadUnmarshal (demoEnv true [1] true) [1]
      = (none, some (.errorsNew "this is not a Logread-slice")) ∧
    NewLogreadUnmarshal (demoEnv true [1] true) [6]
      = (none, some (.errorsNew "this is not a Logread-slice")) ∧
    (∃ lr0, (demoEnv true [1] true).Unmarshal
        ((demoEnv true [1] true).Marshal demoLogread).1 = .ok (.logread lr0) ∧
      ({ ({ demoLogread with cl := none } : Logread) with
          cl := some (demoEnv true [1] true).NewClient } : Logread)
        = { lr0 with cl := some (demoEnv true [1] true).NewClient }) :=
  ⟨(NewLogreadUnmarshal_fails_closed (demoEnv true [1] true) [7, 7, 7]).1
      (.ofCodec "cannot decode") rfl,
   (NewLogreadUnmarshal_fails_closed (demoEnv true [1] true) [1]).2.1
      (.dataWlr ⟨some ⟨"carol", [5], [42], some [9]⟩⟩) rfl
      (fun _ h => Message.noConfusion h),
   (NewLogreadUnmarshal_fails_closed (demoEnv true [1] true) [6]).2.1
      (.other 0) rfl (fun _ h => Message.noConfusion h),
   ((NewLogreadUnmarshal_fails_closed (demoEnv true [1] true)
        ((demoEnv true [1] true).Marshal demoLogread).1).2.2 _ none
      (NewLogreadUnmarshal_of_decode (demoEnv true [1] true) _ _
        (demoEnv_CodecInverts true [1] true demoLogread).2)).elim
      (fun lr0 h => ⟨lr0, h.1, h.2.1⟩)⟩

/-- C12: `Marshal` is not read-only on the session.  After `lr.Marshal()` the live
session has `LatestACL.Data` and `LatestWlr.Data` empty whatever they held before;
every other field of both blocks, `Hash` and `Roster` included, the registry `ACL`,
the credential `Admin` and the client are unchanged.  A session whose blocks carry
data is therefore changed by the call. -/
theorem Marshal_empties_Data {σ : Type} (env : Env σ) (lr : Logread) :
    (Marshal env lr).2.LatestACL.Data = [] ∧
    (Marshal env lr).2.LatestWlr.Data = [] ∧
    (Marshal env lr).2.LatestACL = { lr.LatestACL with Data := [] } ∧
    (Marshal env lr).2.LatestWlr = { lr.LatestWlr with Data := [] } ∧
    (Marshal env lr).2.LatestACL.Hash = lr.LatestACL.Hash ∧
    (Marshal env lr).2.LatestACL.Roster = lr.LatestACL.Roster ∧
    (Marshal env lr).2.LatestACL.Rest = lr.LatestACL.Rest ∧
    (Marshal env lr).2.LatestWlr.Hash = lr.LatestWlr.Hash ∧
    (Marshal env lr).2.LatestWlr.Roster = lr.LatestWlr.Roster ∧
    (Marshal env lr).2.LatestWlr.Rest = lr.LatestWlr.Rest ∧
    (Marshal env lr).2.ACL = lr.ACL ∧
    (Marshal env lr).2.Admin = lr.Admin ∧
    (Marshal env lr).2.cl = lr.cl ∧
    (Marshal env demoLogread).2 ≠ demoLogread :=
  ⟨rfl, rfl, rfl, rfl, rfl, rfl, rfl, rfl, rfl, rfl, rfl, rfl, rfl, by
    intro h
    have hd := congrArg (fun x => x.LatestACL.Data) h
    simp [Marshal, demoLogread, blockAt] at hd⟩

/-! ## Fresh keys in the survey store -/

theorem GoMap.get_filter_ne {V : Type} (m : GoMap Nat V) (k j : Nat) (h : j ≠ k) :
    List.lookup j (m.filter (fun p => !(p.1 == k))) = List.lookup j m := by
  induction m with
  | nil => rfl
  | cons p t ih =>
    obtain ⟨a, b⟩ := p
    by_cases hak : a = k
    · subst hak
      have hja : (j == a) = false := by simpa using h
      simp [List.filter, List.lookup, hja, ih]
    · have hak2 : (a == k) = false := by simpa using hak
      by_cases hja : j = a
      · subst hja
        simp [List.filter, List.lookup, hak2]
      · have hja2 : (j == a) = false := by simpa using hja
        simp [List.filter, List.lookup, hak2, hja2, ih]

theorem GoMap.get_set_self {V : Type} (m : GoMap Nat V) (k : Nat) (v : V) :
    (m.set k v).get k = some v := by
  simp [GoMap.set, GoMap.get, List.lookup]

theorem GoMap.get_set_ne {V : Type} (m : GoMap Nat V) (k j : Nat) (v : V) (h : j ≠ k) :
    (m.set k v).get j = m.get j := by
  have hjk : (j == k) = false := by simpa using h
  simp only [GoMap.set, GoMap.get, List.lookup, hjk]
  exact GoMap.get_filter_ne m k j h

theorem GoMap.mem_keys_set {V : Type} (m : GoMap Nat V) (k j : Nat) (v : V) :
    j ∈ (m.set k v).keys ↔ j = k ∨ j ∈ m.keys := by
  simp only [GoMap.set, GoMap.keys, List.map_cons, List.mem_cons, List.mem_map,
    List.mem_filter]
  constructor
  · rintro (h | ⟨a, ⟨ha, _⟩, rfl⟩)
    · exact Or.inl h
    · exact Or.inr ⟨a, ha, rfl⟩
  · rintro (h | ⟨a, ha, rfl⟩)
    · exact Or.inl h
    · by_cases hjk : a.1 = k
      · exact Or.inl hjk
      · exact Or.inr ⟨a, ⟨ha, by simpa using hjk⟩, rfl⟩

theorem pollMap_get (f : ClientResponse → CipherVector) (l : List ClientResponse) :
    ∀ (L : Nat) (m : GoMap TempID CipherVector) (k : Nat),
      (pollMap f L m l).get k
        = if L < k ∧ k ≤ L + l.length then (l[k - L - 1]?).map f else m.get k := by
  induction l with
  | nil =>
    intro L m k
    have : ¬ (L < k ∧ k ≤ L + ([] : List ClientResponse).length) := by
      simp only [List.length_nil]; omega
    simp only [pollMap, this, if_false]
  | cons v t ih =>
    intro L m k
    simp only [pollMap, ih, List.length_cons]
    by_cases h1 : k = L + 1
    · subst h1
      have hc : ¬ (L + 1 < L + 1 ∧ L + 1 ≤ L + 1 + t.length) := by omega
      have hd : L < L + 1 ∧ L + 1 ≤ L + (t.length + 1) := by omega
      have hi : L + 1 - L - 1 = 0 := by omega
      simp only [hc, if_false, GoMap.get_set_self, hi, List.getElem?_cons_zero,
        Option.map_some']
      rw [if_pos hd]
    · by_cases h2 : L + 1 < k ∧ k ≤ L + 1 + t.length
      · have hd : L < k ∧ k ≤ L + (t.length + 1) := by omega
        have hi : k - L - 1 = (k - (L + 1) - 1) + 1 := by omega
        simp only [h2, hd, and_self, if_true]
        rw [hi, List.getElem?_cons_succ]
      · have hd : ¬ (L < k ∧ k ≤ L + (t.length + 1)) := by omega
        simp only [h2, hd, if_false]
        exact GoMap.get_set_ne m (L + 1) k (f v) h1

theorem pollMap_mem_keys (f : ClientResponse → CipherVector) (l : List ClientResponse) :
    ∀ (L : Nat) (m : GoMap TempID CipherVector) (k : Nat),
      k ∈ (pollMap f L m l).keys ↔ k ∈ m.keys ∨ (L < k ∧ k ≤ L + l.length) := by
  induction l with
  | nil =>
    intro L m k
    simp only [pollMap, List.length_nil]
    constructor
    · exact Or.inl
    · rintro (h | h)
      · exact h
      · omega
  | cons v t ih =>
    intro L m k
    simp only [pollMap, ih, List.length_cons, GoMap.mem_keys_set]
    constructor
    · rintro ((h | h) | h)
      · exact Or.inr (by omega)
      · exact Or.inl h
      · exact Or.inr (by omega)
    · rintro (h | h)
      · exact Or.inl (Or.inr h)
      · by_cases hk : k = L + 1
        · exact Or.inl (Or.inl hk)
        · exact Or.inr (by omega)

theorem keys_toFinset_pollMap (f : ClientResponse → CipherVector) (l : List ClientResponse)
    (L : Nat) (m : GoMap TempID CipherVector) :
    (pollMap f L m l).keys.toFinset = m.keys.toFinset ∪ Finset.Ioc L (L + l.length) := by
  ext k
  simp only [List.mem_toFinset, Finset.mem_union, Finset.mem_Ioc, pollMap_mem_keys]

theorem keys_card_pollMap (f : ClientResponse → CipherVector) (l : List ClientResponse)
    (L : Nat) (m : GoMap TempID CipherVector) (hm : ∀ k ∈ m.keys, k ≤ L) :
    (pollMap f L m l).keys.toFinset.card = m.keys.toFinset.card + l.length := by
  rw [keys_toFinset_pollMap]
  have hdis : Disjoint m.keys.toFinset (Finset.Ioc L (L + l.length)) := by
    rw [Finset.disjoint_left]
    intro k hk hk2
    have h1 : k ≤ L := hm k (List.mem_toFinset.mp hk)
    have h2 : L < k := (Finset.mem_Ioc.mp hk2).1
    exact absurd h1 (Nat.not_le.mpr h2)
  rw [Finset.card_union_of_disjoint hdis, Nat.card_Ioc]
  omega


theorem pollStep_eq (h : Heap) (s : Survey) (v : ClientResponse) (a p : Nat)
    (hAa : s.AggregatingAttributes = some a)
    (hPp : s.ProbabilisticGroupingAttributes = some p) (hne : a ≠ p)
    (hov : s.lastId + 1 < 2 ^ 64) :
    pollStep h s v
      = .returned ({ s with lastId := s.lastId + 1 },
          (h.write a ((h a).set (s.lastId + 1) v.AggregatingAttributes)).write p
            ((h p).set (s.lastId + 1) v.ProbabilisticGroupingAttributes)) := by
  have hmod : (s.lastId + 1) % 2 ^ 64 = s.lastId + 1 := Nat.mod_eq_of_lt hov
  have hpa : ¬ p = a := fun e => hne e.symm
  simp only [pollStep, Survey.nextId, hmod, hAa, hPp, mapAssign, Heap.write, if_neg hpa]

theorem pollLoop_eq (a p : Nat) (hne : a ≠ p) (l : List ClientResponse) :
    ∀ (h : Heap) (s : Survey), s.AggregatingAttributes = some a →
      s.ProbabilisticGroupingAttributes = some p →
      s.lastId + l.length < 2 ^ 64 →
      ∃ h2 : Heap,
        pollLoop h s l = .returned ({ s with lastId := s.lastId + l.length }, h2) ∧
        h2 a = pollMap ClientResponse.AggregatingAttributes s.lastId (h a) l ∧
        h2 p = pollMap ClientResponse.ProbabilisticGroupingAttributes s.lastId (h p) l ∧
        ∀ x, x ≠ a → x ≠ p → h2 x = h x := by
  induction l with
  | nil =>
    intro h s _ _ _
    exact ⟨h, rfl, rfl, rfl, fun _ _ _ => rfl⟩
  | cons v t ih =>
    intro h s hAa hPp hov
    simp only [List.length_cons] at hov
    have hpa : ¬ p = a := fun e => hne e.symm
    have hstep := pollStep_eq h s v a p hAa hPp hne (by omega)
    obtain ⟨h2, hl, h2a, h2p, hfr⟩ :=
      ih ((h.write a ((h a).set (s.lastId + 1) v.AggregatingAttributes)).write p
            ((h p).set (s.lastId + 1) v.ProbabilisticGroupingAttributes))
        { s with lastId := s.lastId + 1 } hAa hPp (by show s.lastId + 1 + t.length < 2 ^ 64; omega)
    refine ⟨h2, ?_, ?_, ?_, ?_⟩
    · simp only [pollLoop, hstep, hl, List.length_cons]
      have e : s.lastId + 1 + t.length = s.lastId + (t.length + 1) := by omega
      rw [e]
    · rw [h2a]
      simp only [pollMap, Heap.write, if_neg hne, if_true]
    · rw [h2p]
      simp only [pollMap, Heap.write, if_true]
    · intro x hxa hxp
      rw [hfr x hxa hxp]
      simp only [Heap.write, if_neg hxa, if_neg hxp]

theorem Poll_eq (h : Heap) (s : Survey) (a p : Nat)
    (hAa : s.AggregatingAttributes = some a)
    (hPp : s.ProbabilisticGroupingAttributes = some p) (hne : a ≠ p)
    (hov : s.lastId + s.ClientResponses.length < 2 ^ 64) :
    ∃ h2 : Heap,
      s.PollProbabilisticGroupingAttributes h
        = .returned (some p,
            { s with ClientResponses := [],
                     lastId := s.lastId + s.ClientResponses.length }, h2) ∧
      h2 a = pollMap ClientResponse.AggregatingAttributes s.lastId (h a) s.ClientResponses ∧
      h2 p = pollMap ClientResponse.ProbabilisticGroupingAttributes s.lastId (h p)
        s.ClientResponses ∧
      ∀ x, x ≠ a → x ≠ p → h2 x = h x := by
  obtain ⟨h2, hl, h2a, h2p, hfr⟩ := pollLoop_eq a p hne s.ClientResponses h s hAa hPp hov
  refine ⟨h2, ?_, h2a, h2p, hfr⟩
  simp only [Survey.PollProbabilisticGroupingAttributes, hl, hPp]

/-- C13, as the code behaves: in a survey whose `AggregatingAttributes` and
`ProbabilisticGroupingAttributes` are allocated and are two distinct maps, where
every key of both maps is at most `lastId` and `lastId` plus the number of pending
client responses stays below `2 ^ 64`, `PollProbabilisticGroupingAttributes`
returns, stores the `i`-th pending response (counted from 1) under the key
`lastId + i` in both maps, keeps every entry the maps had, grows the key set of each
map by exactly the keys `lastId + 1` to `lastId + len(ClientResponses)`, the same
new keys in both, raises `lastId` by `len(ClientResponses)`, empties
`ClientResponses`, returns the map `ProbabilisticGroupingAttributes`, leaves the
other fields and the other maps alone, and every key of both maps is again at most
`lastId`. -/
theorem PollProbabilisticGroupingAttributes_fresh_ids (h : Heap) (s : Survey) (a p : Nat)
    (hAa : s.AggregatingAttributes = some a)
    (hPp : s.ProbabilisticGroupingAttributes = some p) (hne : a ≠ p)
    (hA : ∀ k ∈ (h.read s.AggregatingAttributes).keys, k ≤ s.lastId)
    (hP : ∀ k ∈ (h.read s.ProbabilisticGroupingAttributes).keys, k ≤ s.lastId)
    (hov : s.lastId + s.ClientResponses.length < 2 ^ 64) :
    ∃ h2 : Heap,
      s.PollProbabilisticGroupingAttributes h
        = .returned (some p,
            { s with ClientResponses := [],
                     lastId := s.lastId + s.ClientResponses.length }, h2) ∧
      (∀ i (hi : i < s.ClientResponses.length),
        (h2 a).get (s.lastId + (i + 1))
          = some (s.ClientResponses.get ⟨i, hi⟩).AggregatingAttributes ∧
        (h2 p).get (s.lastId + (i + 1))
          = some (s.ClientResponses.get ⟨i, hi⟩).ProbabilisticGroupingAttributes ∧
        s.lastId + (i + 1) ∉ (h a).keys ∧
        s.lastId + (i + 1) ∉ (h p).keys) ∧
      (∀ k, k ≤ s.lastId →
        (h2 a).get k = (h a).get k ∧ (h2 p).get k = (h p).get k) ∧
      ((h2 a).keys.toFinset
          = (h a).keys.toFinset ∪ Finset.Ioc s.lastId (s.lastId + s.ClientResponses.length) ∧
        (h2 p).keys.toFinset
          = (h p).keys.toFinset
            ∪ Finset.Ioc s.lastId (s.lastId + s.ClientResponses.length)) ∧
      ((h2 a).keys.toFinset.card = (h a).keys.toFinset.card + s.ClientResponses.length ∧
        (h2 p).keys.toFinset.card
          = (h p).keys.toFinset.card + s.ClientResponses.length) ∧
      ((h a).keys.toFinset = (h p).keys.toFinset →
        (h2 a).keys.toFinset = (h2 p).keys.toFinset) ∧
      (∀ k ∈ (h2 a).keys, k ≤ s.lastId + s.ClientResponses.length) ∧
      (∀ k ∈ (h2 p).keys, k ≤ s.lastId + s.ClientResponses.length) ∧
      (∀ x, x ≠ a → x ≠ p → h2 x = h x) := by
  have hA2 : ∀ k ∈ (h a).keys, k ≤ s.lastId := by
    intro k hk
    apply hA
    rw [hAa]
    exact hk
  have hP2 : ∀ k ∈ (h p).keys, k ≤ s.lastId := by
    intro k hk
    apply hP
    rw [hPp]
    exact hk
  obtain ⟨h2, he, h2a, h2p, hfr⟩ := Poll_eq h s a p hAa hPp hne hov
  refine ⟨h2, he, ?_, ?_, ?_, ?_, ?_, ?_, ?_, hfr⟩
  · intro i hi
    have hc : s.lastId < s.lastId + (i + 1) ∧
        s.lastId + (i + 1) ≤ s.lastId + s.ClientResponses.length := by omega
    have hidx : s.lastId + (i + 1) - s.lastId - 1 = i := by omega
    have hget : s.ClientResponses[i]? = some (s.ClientResponses.get ⟨i, hi⟩) := by
      simp [List.getElem?_eq_getElem hi]
    refine ⟨?_, ?_, ?_, ?_⟩
    · rw [h2a]
      simp only [pollMap_get, if_pos hc, hidx, hget, Option.map_some']
    · rw [h2p]
      simp only [pollMap_get, if_pos hc, hidx, hget, Option.map_some']
    · intro hmem
      have h3 : s.lastId + (i + 1) ≤ s.lastId := hA2 _ hmem
      omega
    · intro hmem
      have h3 : s.lastId + (i + 1) ≤ s.lastId := hP2 _ hmem
      omega
  · intro k hk
    have hc : ¬ (s.lastId < k ∧ k ≤ s.lastId + s.ClientResponses.length) := by omega
    rw [h2a, h2p]
    simp only [pollMap_get, if_neg hc, and_self]
  · rw [h2a, h2p]
    exact ⟨keys_toFinset_pollMap _ _ _ _, keys_toFinset_pollMap _ _ _ _⟩
  · rw [h2a, h2p]
    exact ⟨keys_card_pollMap _ _ _ _ hA2, keys_card_pollMap _ _ _ _ hP2⟩
  · intro hsame
    rw [h2a, h2p]
    simp only [keys_toFinset_pollMap, hsame]
  · rw [h2a]
    intro k hk
    rcases (pollMap_mem_keys _ _ _ _ k).mp hk with h3 | h3
    · exact Nat.le_trans (hA2 k h3) (Nat.le_add_right _ _)
    · exact h3.2
  · rw [h2p]
    intro k hk
    rcases (pollMap_mem_keys _ _ _ _ k).mp hk with h3 | h3
    · exact Nat.le_trans (hP2 k h3) (Nat.le_add_right _ _)
    · exact h3.2

theorem PollProbabilisticGroupingAttributes_fresh_ids_witness :
    ∃ h2 : Heap,
      demoSurvey.PollProbabilisticGroupingAttributes demoHeap
        = .returned (some 1, { demoSurvey with ClientResponses := [], lastId := 5 }, h2) ∧
      (h2 0).get 4 = some [11] ∧ (h2 1).get 4 = some [10] ∧
      (h2 0).get 5 = some [21] ∧ (h2 1).get 5 = some [20] ∧
      (h2 0).get 2 = (demoHeap 0).get 2 ∧
      (h2 0).keys.toFinset.card = (demoHeap 0).keys.toFinset.card + 2 :=
  (PollProbabilisticGroupingAttributes_fresh_ids demoHeap demoSurvey 0 1 rfl rfl
      (by decide) (by decide) (by decide) (by decide)).elim
    (fun h2 hh =>
      ⟨h2, hh.1, (hh.2.1 0 (by decide)).1, (hh.2.1 0 (by decide)).2.1,
        (hh.2.1 1 (by decide)).1, (hh.2.1 1 (by decide)).2.1,
        (hh.2.2.1 2 (by decide)).1, hh.2.2.2.2.1.1⟩)

/-- C13, refuted as stated.  The zero value `Survey{ClientResponses: [r]}` has nil
maps, so no key exceeds `lastId = 0` and nothing overflows, yet
`PollProbabilisticGroupingAttributes` panics on the first write instead of storing
`r` under the key 1.  In a survey whose two fields hold one shared empty map the
preconditions hold as well and the call returns, but the second write replaces the
first: `AggregatingAttributes` holds under the key 1 the
`ProbabilisticGroupingAttributes` of `r`, not its `AggregatingAttributes`. -/
theorem PollProbabilisticGroupingAttributes_nil_or_shared_maps :
    ((∀ k ∈ (emptyHeap.read zeroSurvey.AggregatingAttributes).keys, k ≤ zeroSurvey.lastId) ∧
      (∀ k ∈ (emptyHeap.read zeroSurvey.ProbabilisticGroupingAttributes).keys,
        k ≤ zeroSurvey.lastId) ∧
      zeroSurvey.lastId + zeroSurvey.ClientResponses.length < 2 ^ 64 ∧
      zeroSurvey.PollProbabilisticGroupingAttributes emptyHeap = .panicked) ∧
    ((∀ k ∈ (emptyHeap.read sharedSurvey.AggregatingAttributes).keys,
        k ≤ sharedSurvey.lastId) ∧
      (∀ k ∈ (emptyHeap.read sharedSurvey.ProbabilisticGroupingAttributes).keys,
        k ≤ sharedSurvey.lastId) ∧
      sharedSurvey.lastId + sharedSurvey.ClientResponses.length < 2 ^ 64 ∧
      ∃ h2 : Heap,
        sharedSurvey.PollProbabilisticGroupingAttributes emptyHeap
          = .returned (some 7, { sharedSurvey with ClientResponses := [], lastId := 1 }, h2) ∧
        (h2.read sharedSurvey.AggregatingAttributes).get 1 = some [10] ∧
        (h2.read sharedSurvey.AggregatingAttributes).get 1
          ≠ some (sharedSurvey.ClientResponses.get ⟨0, by decide⟩).AggregatingAttributes) :=
  ⟨⟨by decide, by decide, by decide, rfl⟩,
   ⟨by decide, by decide, by decide,
    ⟨emptyHeap.write 7 ((emptyHeap 7).set 1 [11]) |>.write 7 [(1, [10])], rfl,
      by decide, by decide⟩⟩⟩

end Cothority
